import Mathlib

/-!
# Verification of the svitava raster image engine

Shallow embedding of the image engine of this repository: the pixel buffer
(`image_t`) with its bounds-checked color operations, the rasterizer
(hline/vline, Bresenham line, antialiased line), the NxN convolution filter,
the escape-time fractal loops, and the PPM/BMP/TGA encoders.

Machine integers are modelled as `Nat`/`Int` (C `unsigned char` channel
arguments are truncated with `% 256` at the function boundary, exactly as the
implicit conversion does); C `int` division is `Int.tdiv` (truncation toward
zero); C `double` arithmetic is modelled over `ℚ` (all concrete computations
in the theorems below stay on dyadic rationals, where IEEE double arithmetic
is exact).  Pixel storage is a `List Nat` of bytes; a NULL pointer is `none`.
-/

/-- Error codes of the pixel-buffer API contract exercised by `test.c`
(`OK`, `NULL_IMAGE_POINTER`, `NULL_PIXELS_POINTER`, `INVALID_COORDINATES`,
`NULL_COLOR_COMPONENT_POINTER`); the spec names the same taxonomy `Ok`,
`NullBuffer`, `NullStorage`, `OutOfBounds`, `NullComponentPointer`. -/
inductive ErrCode where
  | ok
  | nullImagePointer
  | nullPixelsPointer
  | invalidCoordinates
  | nullColorComponentPointer
deriving DecidableEq

/-- The `image_t` ABI struct (src/kernels.c, src/svitava_.c): width, height,
bytes-per-pixel and the owned pixel storage.  `pixels = none` models a NULL
`unsigned char *pixels`. -/
structure image_t where
  width : Nat
  height : Nat
  bpp : Nat
  pixels : Option (List Nat)
deriving DecidableEq

/-- The canonical invalid buffer: width=0, height=0, bpp=0, no storage. -/
def image_invalid : image_t := ⟨0, 0, 0, none⟩

/-- `image_size` (src/kernels.c line 41): `width * height * bpp`. -/
def image_size (img : image_t) : Nat := img.width * img.height * img.bpp

/-- C `unsigned char` conversion at a call boundary. -/
def byte (v : Nat) : Nat := v % 256

/-- Modelled from the spec: the maximum width accepted by the validated
constructor ("bounded by a maximum to prevent overflow/DoS"); the constant
`MAX_WIDTH` is referenced by test.c but its definition is not under src/.
Any positive bound satisfies the claims, which quantify relative to it. -/
def MAX_WIDTH : Nat := 32767

/-- Modelled from the spec: the maximum height accepted by the validated
constructor; see `MAX_WIDTH`. -/
def MAX_HEIGHT : Nat := 32767

/-- Modelled from the spec: the validated constructor
"`create(width, height, depth)` → PixelBuffer or the invalid-buffer sentinel.
Rejects width/height = 0 or > maximum, depth ∉ {1,3,4}."  The `image_create`
under src/ (kernels.c line 60, svitava_.c line 56) performs no validation;
the validated version is exercised by test.c but its code is not under src/.
A fresh C buffer's bytes are indeterminate; the model uses zeros, and no
theorem below reads a byte that was not explicitly written or cleared. -/
def image_create (w h bpp : Nat) : image_t :=
  if w = 0 ∨ h = 0 ∨ MAX_WIDTH < w ∨ MAX_HEIGHT < h ∨ (bpp ≠ 1 ∧ bpp ≠ 3 ∧ bpp ≠ 4) then
    image_invalid
  else
    ⟨w, h, bpp, some (List.replicate (w * h * bpp) 0)⟩

/-- The out-of-bounds test `x < 0 || y < 0 || x >= (int)width || y >= (int)height`
shared by every pixel operation. -/
def coordOOB (w h : Nat) (x y : Int) : Prop :=
  x < 0 ∨ y < 0 ∨ (w : Int) ≤ x ∨ (h : Int) ≤ y

instance (w h : Nat) (x y : Int) : Decidable (coordOOB w h x y) := by
  unfold coordOOB; infer_instance

/-- Byte offset `(x + y * width) * bpp` of pixel (x,y); used only on in-range
coordinates, where `x + y * width` is non-negative. -/
def pixBase (w bpp : Nat) (x y : Int) : Nat := ((x + y * (w : Int)).toNat) * bpp

/-- `image_putpixel` of src/svitava.c (line 34): bounds check first, then for
bpp 1 store the BT.601 luma `(77r + 150g + 29b) >> 8`, otherwise store r,g,b
and, for bpp 4, the alpha byte.  Out-of-bounds or NULL storage is a no-op. -/
def image_putpixel_raw (img : image_t) (x y : Int) (r g b a : Nat) : image_t :=
  match img.pixels with
  | none => img
  | some px =>
    if coordOOB img.width img.height x y then img
    else
      let p := pixBase img.width img.bpp x y
      if img.bpp = 1 then
        { img with pixels := some (px.set p ((77 * byte r + 150 * byte g + 29 * byte b) / 256)) }
      else
        let px3 := ((px.set p (byte r)).set (p + 1) (byte g)).set (p + 2) (byte b)
        { img with pixels := some (if img.bpp = 4 then px3.set (p + 3) (byte a) else px3) }

/-- `image_putpixel` of src/kernels.c (line 119): identical to the svitava.c
version except that it has no grayscale branch — it always writes the three
bytes r,g,b at the pixel offset (and alpha for bpp 4), even on bpp-1 buffers.
Used by `apply_kernel`. -/
def image_putpixel_k (img : image_t) (x y : Int) (r g b a : Nat) : image_t :=
  match img.pixels with
  | none => img
  | some px =>
    if coordOOB img.width img.height x y then img
    else
      let p := pixBase img.width img.bpp x y
      let px3 := ((px.set p (byte r)).set (p + 1) (byte g)).set (p + 2) (byte b)
      { img with pixels := some (if img.bpp = 4 then px3.set (p + 3) (byte a) else px3) }

/-- `image_getpixel` of src/kernels.c (line 193): reads the three bytes at the
pixel offset as r,g,b and the fourth as alpha for bpp 4 (255 otherwise).
On NULL storage or out-of-bounds coordinates C leaves the output slots
unmodified (indeterminate); the model returns zeros there, and every use in
the theorems below is in range. -/
def image_getpixel_k (img : image_t) (x y : Int) : Nat × Nat × Nat × Nat :=
  match img.pixels with
  | none => (0, 0, 0, 0)
  | some px =>
    if coordOOB img.width img.height x y then (0, 0, 0, 0)
    else
      let p := pixBase img.width img.bpp x y
      (px.getD p 0, px.getD (p + 1) 0, px.getD (p + 2) 0,
        if img.bpp = 4 then px.getD (p + 3) 0 else 255)

/-- `image_putpixel_max` of src/svitava_.c (line 82): each of r,g,b replaces
the stored byte only if greater; the fourth byte is overwritten with alpha
unconditionally (this version writes it regardless of bpp; it is only ever
called on bpp-4 buffers). -/
def image_putpixel_max_raw (img : image_t) (x y : Int) (r g b a : Nat) : image_t :=
  match img.pixels with
  | none => img
  | some px =>
    if coordOOB img.width img.height x y then img
    else
      let p := pixBase img.width img.bpp x y
      let px3 := ((px.set p (max (px.getD p 0) (byte r))).set
                    (p + 1) (max (px.getD (p + 1) 0) (byte g))).set
                    (p + 2) (max (px.getD (p + 2) 0) (byte b))
      { img with pixels := some (px3.set (p + 3) (byte a)) }

/-- `image_hline` of src/svitava_.c (line 107): inclusive span fill from
`min x1 x2` to `max x1 x2` through the bounds-checked `image_putpixel`. -/
def image_hline_raw (img : image_t) (x1 x2 y : Int) (r g b a : Nat) : image_t :=
  let fromX := if x1 < x2 then x1 else x2
  let toX := if x1 < x2 then x2 else x1
  (List.range ((toX - fromX).toNat + 1)).foldl
    (fun im i => image_putpixel_raw im (fromX + i) y r g b a) img

/-- `image_vline` of src/svitava_.c (line 116): inclusive vertical span fill. -/
def image_vline_raw (img : image_t) (x y1 y2 : Int) (r g b a : Nat) : image_t :=
  let fromY := if y1 < y2 then y1 else y2
  let toY := if y1 < y2 then y2 else y1
  (List.range ((toY - fromY).toNat + 1)).foldl
    (fun im i => image_putpixel_raw im x (fromY + i) r g b a) img

/-- Modelled from the spec: the error-code-returning `image_putpixel` of the
contract in test.c ("All coordinate checks precede any write; out-of-bounds
calls are no-ops that still report the error code").  The write behaviour is
that of src/svitava.c `image_putpixel`; the src/ variants return void. -/
def image_putpixel (img? : Option image_t) (x y : Int) (r g b a : Nat) :
    ErrCode × Option image_t :=
  match img? with
  | none => (.nullImagePointer, none)
  | some img =>
    match img.pixels with
    | none => (.nullPixelsPointer, some img)
    | some _ =>
      if coordOOB img.width img.height x y then (.invalidCoordinates, some img)
      else (.ok, some (image_putpixel_raw img x y r g b a))

/-- Modelled from the spec: the error-code-returning `image_putpixel_max`
(test.c contract).  Each color byte is replaced only if greater; on bpp-1
buffers the luma of (r,g,b) competes with the stored byte (test.c
`test_image_putpixel_max_grayscale_image`); alpha is overwritten for bpp 4.
The src/ variants return void and lack the grayscale branch. -/
def image_putpixel_max (img? : Option image_t) (x y : Int) (r g b a : Nat) :
    ErrCode × Option image_t :=
  match img? with
  | none => (.nullImagePointer, none)
  | some img =>
    match img.pixels with
    | none => (.nullPixelsPointer, some img)
    | some px =>
      if coordOOB img.width img.height x y then (.invalidCoordinates, some img)
      else
        let p := pixBase img.width img.bpp x y
        if img.bpp = 1 then
          let px1 := px.set p (max (px.getD p 0) ((77 * byte r + 150 * byte g + 29 * byte b) / 256))
          (.ok, some { img with pixels := some px1 })
        else
          let px3 := ((px.set p (max (px.getD p 0) (byte r))).set
                        (p + 1) (max (px.getD (p + 1) 0) (byte g))).set
                        (p + 2) (max (px.getD (p + 2) 0) (byte b))
          let px4 := if img.bpp = 4 then px3.set (p + 3) (byte a) else px3
          (.ok, some { img with pixels := some px4 })

/-- Modelled from the spec: the error-code-returning `image_getpixel`
("Depth 1: r=g=b=stored byte, a=255 (opaque default). Depth 3: a=255.
Depth 4: a=stored byte").  The bpp-3/4 behaviour follows src/kernels.c
`image_getpixel`; the grayscale branch and the error codes are exercised by
test.c but their code is not under src/.  The NULL-component-pointer check is
not modelled (no claim mentions it); on error the C code leaves the output
slots unmodified, the model returns zeros. -/
def image_getpixel (img? : Option image_t) (x y : Int) :
    ErrCode × (Nat × Nat × Nat × Nat) :=
  match img? with
  | none => (.nullImagePointer, (0, 0, 0, 0))
  | some img =>
    match img.pixels with
    | none => (.nullPixelsPointer, (0, 0, 0, 0))
    | some px =>
      if coordOOB img.width img.height x y then (.invalidCoordinates, (0, 0, 0, 0))
      else
        let p := pixBase img.width img.bpp x y
        if img.bpp = 1 then
          (.ok, (px.getD p 0, px.getD p 0, px.getD p 0, 255))
        else
          (.ok, (px.getD p 0, px.getD (p + 1) 0, px.getD (p + 2) 0,
            if img.bpp = 4 then px.getD (p + 3) 0 else 255))

/-- Modelled from the spec: the error-code-returning `image_hline` of the
test.c contract, which validates every coordinate of the span (x1, x2 and y)
before writing anything (`test_image_hline_negative_coordinates`,
`test_image_hline_coordinates_outside_range`); the span fill itself is that
of src/svitava_.c `image_hline`. -/
def image_hline (img? : Option image_t) (x1 x2 y : Int) (r g b a : Nat) :
    ErrCode × Option image_t :=
  match img? with
  | none => (.nullImagePointer, none)
  | some img =>
    match img.pixels with
    | none => (.nullPixelsPointer, some img)
    | some _ =>
      if coordOOB img.width img.height x1 y ∨ coordOOB img.width img.height x2 y then
        (.invalidCoordinates, some img)
      else (.ok, some (image_hline_raw img x1 x2 y r g b a))

/-- `image_clone` of src/kernels.c (line 76): a NULL image or NULL pixel
pointer yields the canonical invalid image; otherwise the clone gets the same
dimensions and a freshly allocated copy of the bytes (`allocOk` models whether
the `malloc` inside `image_create` succeeds; on failure the C code returns the
dimensions with a NULL pixel pointer). -/
def image_clone (img? : Option image_t) (allocOk : Bool) : image_t :=
  match img? with
  | none => image_invalid
  | some img =>
    match img.pixels with
    | none => image_invalid
    | some px =>
      if allocOk then ⟨img.width, img.height, img.bpp, some px⟩
      else ⟨img.width, img.height, img.bpp, none⟩

theorem list_getD_set_self (l : List Nat) (i : Nat) (v : Nat) (h : i < l.length) :
    (l.set i v).getD i 0 = v := by
  induction l generalizing i with
  | nil => simp at h
  | cons hd tl ih =>
    cases i with
    | zero => simp [List.set]
    | succ n =>
      simp only [List.set, List.getD, List.get?]
      exact ih n (by simpa using h)

theorem list_getD_set_ne (l : List Nat) (i j : Nat) (v : Nat) (h : i ≠ j) :
    (l.set i v).getD j 0 = l.getD j 0 := by
  induction l generalizing i j with
  | nil => simp [List.set]
  | cons hd tl ih =>
    cases i with
    | zero =>
      cases j with
      | zero => exact absurd rfl h
      | succ m => simp [List.set, List.getD]
    | succ n =>
      cases j with
      | zero => simp [List.set, List.getD]
      | succ m =>
        simp only [List.set, List.getD, List.get?]
        exact ih n m (by omega)

/-- C2: `create(width, height, depth)` with width 0, height 0, a dimension
above the maximum, or depth outside {1,3,4} returns the canonical invalid
buffer (0, 0, 0, no storage); valid parameters yield a fully initialized
buffer of the requested dimensions with storage of length width·height·depth. -/
theorem image_create_spec (w h d : Nat) :
    ((w = 0 ∨ h = 0 ∨ MAX_WIDTH < w ∨ MAX_HEIGHT < h ∨ (d ≠ 1 ∧ d ≠ 3 ∧ d ≠ 4)) →
      image_create w h d = image_invalid) ∧
    (w ≠ 0 → h ≠ 0 → w ≤ MAX_WIDTH → h ≤ MAX_HEIGHT → (d = 1 ∨ d = 3 ∨ d = 4) →
      (image_create w h d).width = w ∧ (image_create w h d).height = h ∧
      (image_create w h d).bpp = d ∧
      ∃ px, (image_create w h d).pixels = some px ∧ px.length = w * h * d) := by
  constructor
  · intro hinv
    unfold image_create
    rw [if_pos hinv]
  · intro hw hh hwm hhm hd
    have hvalid : ¬(w = 0 ∨ h = 0 ∨ MAX_WIDTH < w ∨ MAX_HEIGHT < h ∨ (d ≠ 1 ∧ d ≠ 3 ∧ d ≠ 4)) := by
      push_neg
      refine ⟨hw, hh, by omega, by omega, ?_⟩
      intro h1
      rcases hd with h | h | h <;> omega
    unfold image_create
    rw [if_neg hvalid]
    exact ⟨rfl, rfl, rfl, ⟨_, rfl, List.length_replicate _ _⟩⟩

theorem image_create_spec_witness :
    (0 = 0 ∨ 100 = 0 ∨ MAX_WIDTH < 0 ∨ MAX_HEIGHT < 100 ∨ ((4:Nat) ≠ 1 ∧ (4:Nat) ≠ 3 ∧ (4:Nat) ≠ 4)) ∧
    image_create 0 100 4 = image_invalid :=
  ⟨Or.inl rfl, (image_create_spec 0 100 4).1 (Or.inl rfl)⟩

/-- C1: on a buffer with positive dimensions, every pixel operation called
with a coordinate x<0, y<0, x≥width or y≥height reports the out-of-bounds
error code (`INVALID_COORDINATES`) and returns the buffer completely
unchanged (no byte of the pixel storage is written): the coordinate check
precedes any write. -/
theorem pixel_ops_out_of_bounds (w h d : Nat) (px : List Nat)
    (hw : 0 < w) (hh : 0 < h)
    (x y : Int) (hoob : coordOOB w h x y) (r g b a : Nat) :
    image_putpixel (some ⟨w, h, d, some px⟩) x y r g b a
      = (.invalidCoordinates, some ⟨w, h, d, some px⟩) ∧
    image_putpixel_max (some ⟨w, h, d, some px⟩) x y r g b a
      = (.invalidCoordinates, some ⟨w, h, d, some px⟩) ∧
    image_getpixel (some ⟨w, h, d, some px⟩) x y
      = (.invalidCoordinates, (0, 0, 0, 0)) ∧
    (∀ x1 x2 yy : Int,
      coordOOB w h x1 yy ∨ coordOOB w h x2 yy →
      image_hline (some ⟨w, h, d, some px⟩) x1 x2 yy r g b a
        = (.invalidCoordinates, some ⟨w, h, d, some px⟩)) := by
  refine ⟨?_, ?_, ?_, ?_⟩
  · simp [image_putpixel, hoob]
  · simp [image_putpixel_max, hoob]
  · simp [image_getpixel, hoob]
  · intro x1 x2 yy hoob2
    simp [image_hline, hoob2]

theorem pixel_ops_out_of_bounds_witness :
    (0 < 100 ∧ 0 < 100 ∧ coordOOB 100 100 (-1) 0) ∧
    image_putpixel (some ⟨100, 100, 1, List.replicate 10000 0⟩) (-1) 0 0 0 0 0
      = (.invalidCoordinates, some ⟨100, 100, 1, List.replicate 10000 0⟩) :=
  ⟨⟨by decide, by decide, Or.inl (by decide)⟩,
    (pixel_ops_out_of_bounds 100 100 1 (List.replicate 10000 0)
      (by decide) (by decide) (-1) 0 (Or.inl (by decide)) 0 0 0 0).1⟩

theorem pixBase_add_lt (w h d : Nat) (x y : Int)
    (hx0 : 0 ≤ x) (hxw : x < (w : Int)) (hy0 : 0 ≤ y) (hyh : y < (h : Int))
    (k : Nat) (hk : k < d) :
    pixBase w d x y + k < w * h * d := by
  unfold pixBase
  have h0 : 0 ≤ x + y * (w : Int) :=
    add_nonneg hx0 (mul_nonneg hy0 (by positivity))
  have hz : (x + y * (w : Int)).toNat + 1 ≤ w * h := by
    have h2 : (((x + y * (w : Int)).toNat : Int)) = x + y * (w : Int) :=
      Int.toNat_of_nonneg h0
    have h3 : ((x + y * (w : Int)).toNat : Int) + 1 ≤ ((w * h : Nat) : Int) := by
      rw [h2]
      push_cast
      nlinarith [mul_le_mul_of_nonneg_right (show y + 1 ≤ (h : Int) by omega)
        (show (0 : Int) ≤ (w : Int) by positivity)]
    exact_mod_cast h3
  calc (x + y * (w : Int)).toNat * d + k
      < ((x + y * (w : Int)).toNat + 1) * d := by
        have := Nat.add_lt_add_left hk ((x + y * (w : Int)).toNat * d)
        calc (x + y * (w : Int)).toNat * d + k
            < (x + y * (w : Int)).toNat * d + d := this
          _ = ((x + y * (w : Int)).toNat + 1) * d := by ring
    _ ≤ (w * h) * d := Nat.mul_le_mul_right d hz
    _ = w * h * d := rfl


theorem image_getpixel_eval3 (w h : Nat) (px : List Nat) (x y : Int)
    (hnoob : ¬ coordOOB w h x y) :
    image_getpixel (some ⟨w, h, 3, some px⟩) x y
      = (.ok, (px.getD (pixBase w 3 x y) 0, px.getD (pixBase w 3 x y + 1) 0,
               px.getD (pixBase w 3 x y + 2) 0, 255)) := by
  simp only [image_getpixel]
  rw [if_neg hnoob]
  norm_num

theorem image_getpixel_eval4 (w h : Nat) (px : List Nat) (x y : Int)
    (hnoob : ¬ coordOOB w h x y) :
    image_getpixel (some ⟨w, h, 4, some px⟩) x y
      = (.ok, (px.getD (pixBase w 4 x y) 0, px.getD (pixBase w 4 x y + 1) 0,
               px.getD (pixBase w 4 x y + 2) 0, px.getD (pixBase w 4 x y + 3) 0)) := by
  simp only [image_getpixel]
  rw [if_neg hnoob]
  norm_num

theorem image_getpixel_eval1 (w h : Nat) (px : List Nat) (x y : Int)
    (hnoob : ¬ coordOOB w h x y) :
    image_getpixel (some ⟨w, h, 1, some px⟩) x y
      = (.ok, (px.getD (pixBase w 1 x y) 0, px.getD (pixBase w 1 x y) 0,
               px.getD (pixBase w 1 x y) 0, 255)) := by
  simp only [image_getpixel]
  rw [if_neg hnoob]
  norm_num

/-- C3: on a valid buffer at an in-range coordinate, `put_pixel` followed by
`get_pixel` returns exactly the stored r,g,b for depth 3 and 4 (plus the
stored alpha for depth 4); alpha reads back as 255 on depth 1 and depth 3;
and on depth 1 the returned r, g and b all equal the single stored byte
(the BT.601 luma of the written color). -/
theorem put_then_get_roundtrip (w h d : Nat) (px : List Nat)
    (hlen : px.length = w * h * d)
    (x y : Int) (hx0 : 0 ≤ x) (hxw : x < (w : Int)) (hy0 : 0 ≤ y) (hyh : y < (h : Int))
    (r g b a : Nat) (hr : r < 256) (hg : g < 256) (hb : b < 256) (ha : a < 256) :
    (d = 3 → image_getpixel (image_putpixel (some ⟨w, h, d, some px⟩) x y r g b a).2 x y
        = (.ok, (r, g, b, 255))) ∧
    (d = 4 → image_getpixel (image_putpixel (some ⟨w, h, d, some px⟩) x y r g b a).2 x y
        = (.ok, (r, g, b, a))) ∧
    (d = 1 → image_getpixel (image_putpixel (some ⟨w, h, d, some px⟩) x y r g b a).2 x y
        = (.ok, ((77 * r + 150 * g + 29 * b) / 256, (77 * r + 150 * g + 29 * b) / 256,
                 (77 * r + 150 * g + 29 * b) / 256, 255)) ∧
      (image_putpixel (some ⟨w, h, d, some px⟩) x y r g b a).2
        = some ⟨w, h, 1, some (px.set (pixBase w 1 x y)
            ((77 * r + 150 * g + 29 * b) / 256))⟩) := by
  have hnoob : ¬ coordOOB w h x y := by
    simp only [coordOOB]
    push_neg
    exact ⟨hx0, hy0, hxw, hyh⟩
  have hbr : byte r = r := Nat.mod_eq_of_lt hr
  have hbg : byte g = g := Nat.mod_eq_of_lt hg
  have hbb : byte b = b := Nat.mod_eq_of_lt hb
  have hba : byte a = a := Nat.mod_eq_of_lt ha
  refine ⟨?_, ?_, ?_⟩
  · intro hd; subst hd
    have hp0 : pixBase w 3 x y + 0 < px.length := by
      rw [hlen]; exact pixBase_add_lt w h 3 x y hx0 hxw hy0 hyh 0 (by omega)
    have hp1 : pixBase w 3 x y + 1 < px.length := by
      rw [hlen]; exact pixBase_add_lt w h 3 x y hx0 hxw hy0 hyh 1 (by omega)
    have hp2 : pixBase w 3 x y + 2 < px.length := by
      rw [hlen]; exact pixBase_add_lt w h 3 x y hx0 hxw hy0 hyh 2 (by omega)
    have hput : image_putpixel (some ⟨w, h, 3, some px⟩) x y r g b a
        = (.ok, some ⟨w, h, 3, some (((px.set (pixBase w 3 x y) r).set
            (pixBase w 3 x y + 1) g).set (pixBase w 3 x y + 2) b)⟩) := by
      simp only [image_putpixel, image_putpixel_raw]
      rw [if_neg hnoob, if_neg hnoob]
      norm_num [hbr, hbg, hbb]
    rw [hput]
    rw [image_getpixel_eval3 w h _ x y hnoob]
    simp only [Prod.mk.injEq]
    refine ⟨trivial, ?_, ?_, ?_, trivial⟩
    · rw [list_getD_set_ne _ _ _ _ (by omega), list_getD_set_ne _ _ _ _ (by omega),
        list_getD_set_self _ _ _ (by omega)]
    · rw [list_getD_set_ne _ _ _ _ (by omega),
        list_getD_set_self _ _ _ (by simp only [List.length_set]; omega)]
    · rw [list_getD_set_self _ _ _ (by simp only [List.length_set]; omega)]
  · intro hd; subst hd
    have hp0 : pixBase w 4 x y + 0 < px.length := by
      rw [hlen]; exact pixBase_add_lt w h 4 x y hx0 hxw hy0 hyh 0 (by omega)
    have hp1 : pixBase w 4 x y + 1 < px.length := by
      rw [hlen]; exact pixBase_add_lt w h 4 x y hx0 hxw hy0 hyh 1 (by omega)
    have hp2 : pixBase w 4 x y + 2 < px.length := by
      rw [hlen]; exact pixBase_add_lt w h 4 x y hx0 hxw hy0 hyh 2 (by omega)
    have hp3 : pixBase w 4 x y + 3 < px.length := by
      rw [hlen]; exact pixBase_add_lt w h 4 x y hx0 hxw hy0 hyh 3 (by omega)
    have hput : image_putpixel (some ⟨w, h, 4, some px⟩) x y r g b a
        = (.ok, some ⟨w, h, 4, some ((((px.set (pixBase w 4 x y) r).set
            (pixBase w 4 x y + 1) g).set (pixBase w 4 x y + 2) b).set
            (pixBase w 4 x y + 3) a)⟩) := by
      simp only [image_putpixel, image_putpixel_raw]
      rw [if_neg hnoob, if_neg hnoob]
      norm_num [hbr, hbg, hbb, hba]
    rw [hput]
    rw [image_getpixel_eval4 w h _ x y hnoob]
    simp only [Prod.mk.injEq]
    refine ⟨trivial, ?_, ?_, ?_, ?_⟩
    · rw [list_getD_set_ne _ _ _ _ (by omega), list_getD_set_ne _ _ _ _ (by omega),
        list_getD_set_ne _ _ _ _ (by omega), list_getD_set_self _ _ _ (by omega)]
    · rw [list_getD_set_ne _ _ _ _ (by omega), list_getD_set_ne _ _ _ _ (by omega),
        list_getD_set_self _ _ _ (by simp only [List.length_set]; omega)]
    · rw [list_getD_set_ne _ _ _ _ (by omega),
        list_getD_set_self _ _ _ (by simp only [List.length_set]; omega)]
    · rw [list_getD_set_self _ _ _ (by simp only [List.length_set]; omega)]
  · intro hd; subst hd
    have hp0 : pixBase w 1 x y + 0 < px.length := by
      rw [hlen]; exact pixBase_add_lt w h 1 x y hx0 hxw hy0 hyh 0 (by omega)
    have hput : image_putpixel (some ⟨w, h, 1, some px⟩) x y r g b a
        = (.ok, some ⟨w, h, 1, some (px.set (pixBase w 1 x y)
            ((77 * r + 150 * g + 29 * b) / 256))⟩) := by
      simp only [image_putpixel, image_putpixel_raw]
      rw [if_neg hnoob, if_neg hnoob]
      norm_num [hbr, hbg, hbb]
    rw [hput]
    rw [image_getpixel_eval1 w h _ x y hnoob]
    simp only [Prod.mk.injEq]
    rw [list_getD_set_self _ _ _ (by omega)]
    simp

theorem put_then_get_roundtrip_witness :
    ((List.replicate 12 7).length = 2 * 2 * 3 ∧ (0:Int) ≤ 1 ∧ (1:Int) < 2 ∧
      (0:Int) ≤ 0 ∧ (0:Int) < 2 ∧ 10 < 256 ∧ 20 < 256 ∧ 30 < 256 ∧ 40 < 256) ∧
    image_getpixel
      (image_putpixel (some ⟨2, 2, 3, some (List.replicate 12 7)⟩) 1 0 10 20 30 40).2 1 0
      = (.ok, (10, 20, 30, 255)) :=
  ⟨⟨by decide, by decide, by decide, by decide, by decide, by decide, by decide,
    by decide, by decide⟩,
    (put_then_get_roundtrip 2 2 3 (List.replicate 12 7) (by decide) 1 0
      (by decide) (by decide) (by decide) (by decide) 10 20 30 40
      (by decide) (by decide) (by decide) (by decide)).1 rfl⟩

/-- C10: `image_clone` maps a NULL image pointer, and any image whose pixel
pointer is NULL (whatever its dimensions), to the canonical invalid image
(0,0,0,NULL); an image with pixel storage and a successful allocation is
cloned into an image with identical dimensions, depth and byte content (the
storage of the clone is a fresh copy: in this value-semantics model the
original and the clone are separate values, so writes through one never
affect the other). -/
theorem image_clone_spec :
    image_clone none true = image_invalid ∧
    (∀ w h d : Nat, image_clone (some ⟨w, h, d, none⟩) true = image_invalid) ∧
    (∀ img : image_t, ∀ px : List Nat, img.pixels = some px →
      image_clone (some img) true = ⟨img.width, img.height, img.bpp, some px⟩) := by
  refine ⟨rfl, fun w h d => rfl, ?_⟩
  intro img px hpx
  obtain ⟨w, h, d, pxo⟩ := img
  cases pxo with
  | none => simp at hpx
  | some px0 =>
    simp only [Option.some.injEq] at hpx
    subst hpx
    rfl

theorem image_clone_spec_witness :
    (⟨3, 2, 4, some (List.replicate 24 9)⟩ : image_t).pixels = some (List.replicate 24 9) ∧
    image_clone (some ⟨3, 2, 4, some (List.replicate 24 9)⟩) true
      = ⟨3, 2, 4, some (List.replicate 24 9)⟩ :=
  ⟨rfl, image_clone_spec.2.2 ⟨3, 2, 4, some (List.replicate 24 9)⟩
    (List.replicate 24 9) rfl⟩

/-- Byte of the pixel storage at a flat index (0 when there is no storage or
the index is out of range). -/
def getByte (img : image_t) (j : Nat) : Nat :=
  match img.pixels with
  | none => 0
  | some px => px.getD j 0

/-- Loop body of `image_line` (src/svitava_.c line 125, src/gfx.c line 370):
the integer Bresenham loop `while(1){ putpixel; if at end break; e2 = err;
if (e2 > -dx) { err -= dy; x1 += sx; } if (e2 < dy) { err += dx; y1 += sy; } }`.
The `fuel` argument bounds the iteration count; every call below supplies
`dx + dy + 1`, which covers the loop's complete run. -/
def lineLoop (r g b a : Nat) (sx sy dx dy x2 y2 : Int) :
    Nat → image_t → Int → Int → Int → image_t
  | 0, img, _, _, _ => img
  | fuel + 1, img, x1, y1, err =>
    let img1 := image_putpixel_raw img x1 y1 r g b a
    if x1 = x2 ∧ y1 = y2 then img1
    else
      let e2 := err
      let err1 := if -dx < e2 then err - dy else err
      let x1' := if -dx < e2 then x1 + sx else x1
      let err2 := if e2 < dy then err1 + dx else err1
      let y1' := if e2 < dy then y1 + sy else y1
      lineLoop r g b a sx sy dx dy x2 y2 fuel img1 x1' y1' err2

/-- `image_line` of src/svitava_.c (line 125): integer Bresenham line with
`err = (dx > dy ? dx : -dy) / 2` (C division truncates toward zero, hence
`Int.tdiv`), stepping until both coordinates reach the endpoint. -/
def image_line (img : image_t) (x1 y1 x2 y2 : Int) (r g b a : Nat) : image_t :=
  let dx : Int := (x2 - x1).natAbs
  let dy : Int := (y2 - y1).natAbs
  let sx : Int := if x1 < x2 then 1 else -1
  let sy : Int := if y1 < y2 then 1 else -1
  let err := (if dy < dx then dx else -dy).tdiv 2
  lineLoop r g b a sx sy dx dy x2 y2 ((dx + dy).toNat + 1) img x1 y1 err

/-- C7 (amended): a degenerate line `line(x, y, x, y, color)` touches exactly
one pixel — it is the single bounds-checked `put_pixel` at (x, y). -/
theorem line_single_point (img : image_t) (x y : Int) (r g b a : Nat) :
    image_line img x y x y r g b a = image_putpixel_raw img x y r g b a := by
  simp [image_line, lineLoop]

/-- C7 (counterexample): Bresenham as implemented is not symmetric in its
endpoints.  On a cleared 5x2 RGB buffer, `line(0,0,4,1)` colors pixel (2,0)
while `line(4,1,0,0)` colors pixel (2,1) instead, so the two calls do not
write the same set of pixels (both draw the same uniform color on the same
cleared buffer, so equal pixel sets would force equal buffers). -/
theorem line_not_endpoint_symmetric :
    image_line ⟨5, 2, 3, some (List.replicate 30 0)⟩ 0 0 4 1 255 255 255 0
      ≠ image_line ⟨5, 2, 3, some (List.replicate 30 0)⟩ 4 1 0 0 255 255 255 0 := by
  decide

/-- Loop of `image_line_aa` (src/svitava_.c line 220): at each step along the
major axis write the minor-axis neighbour `(x+xp, y+yp)` with intensity
`c1 = (int)e` and the pixel `(x, y)` with the complementary intensity
`c2 = 255 - c1`, both through `image_putpixel_max`; then advance `e` by the
fixed-point slope `p` and wrap it at 256, stepping the minor coordinate.
The C accumulator `e` is a `double`, modelled over `ℚ`; in every execution
`e` stays in `[0, 256)` (the slope `p` is positive after the sign
normalization), where the C cast `(int)e` is `⌊e⌋` and `255 - c1` is an
ordinary subtraction, as written here.  `fuel` bounds the iteration count;
the caller supplies `imax - imin + 1`, the loop's exact trip count. -/
def aaLoop (r g b a : Nat) (xdelta ydelta xpdelta ypdelta xp yp imax : Int) (p : ℚ)
    (fuel : Nat) (img : image_t) (i x y : Int) (e : ℚ) : image_t :=
  if fuel = 0 then img
  else if imax < i then img
  else
    let c1 : Nat := (Int.floor e).toNat
    let c2 : Nat := 255 - c1
    let img1 := image_putpixel_max_raw img (x + xp) (y + yp)
      ((r * c1) / 255) ((g * c1) / 255) ((b * c1) / 255) a
    let img2 := image_putpixel_max_raw img1 x y
      ((r * c2) / 255) ((g * c2) / 255) ((b * c2) / 255) a
    let e' := e + p
    let x' := x + xdelta
    let y' := y + ydelta
    if 256 ≤ e' then
      aaLoop r g b a xdelta ydelta xpdelta ypdelta xp yp imax p (fuel - 1) img2
        (i + 1) (x' + xpdelta) (y' + ypdelta) (e' - 256)
    else
      aaLoop r g b a xdelta ydelta xpdelta ypdelta xp yp imax p (fuel - 1) img2
        (i + 1) x' y' e'
termination_by fuel
decreasing_by all_goals omega

/-- `image_line_aa` of src/svitava_.c (line 151): purely vertical or
horizontal inputs delegate to `image_vline`/`image_hline`; otherwise the
endpoints are swapped so that x1 ≤ x2 (the XOR swap replaced by an ordinary
swap), the major axis is the larger of |dx|, |dy| (computed before the
swap), the slope sign is normalized to be positive, and the fixed-point
stepping loop runs from `imin` to `imax`.  Intensities are `(channel*ci)/255`
with no special-casing of channel value 255. -/
def image_line_aa (img : image_t) (x1 y1 x2 y2 : Int) (r g b a : Nat) : image_t :=
  let dx := x2 - x1
  let dy := y2 - y1
  if x1 = x2 then image_vline_raw img x1 y1 y2 r g b a
  else if y1 = y2 then image_hline_raw img x1 x2 y1 r g b a
  else
    let x1s := if x2 < x1 then x2 else x1
    let y1s := if x2 < x1 then y2 else y1
    let x2s := if x2 < x1 then x1 else x2
    let y2s := if x2 < x1 then y1 else y2
    if dy.natAbs < dx.natAbs then
      let s0 : ℚ := (dy : ℚ) / (dx : ℚ)
      let s : ℚ := if y1s < y2s then s0 else -s0
      let ypdelta : Int := if y1s < y2s then 1 else -1
      let yp : Int := if y1s < y2s then 1 else -1
      aaLoop r g b a 1 0 0 ypdelta 0 yp x2s (s * 256)
        ((x2s - x1s).toNat + 1) img x1s x1s y1s 0
    else
      let s0 : ℚ := (dx : ℚ) / (dy : ℚ)
      let s : ℚ := if y1s < y2s then s0 else -s0
      let xpdelta : Int := if y1s < y2s then 1 else -1
      let xp : Int := if y1s < y2s then 1 else -1
      let imin := if y1s < y2s then y1s else y2s
      let imax := if y1s < y2s then y2s else y1s
      let xs := if y1s < y2s then x1s else x2s
      let ys := if y1s < y2s then y1s else y2s
      aaLoop r g b a 0 1 xpdelta 0 xp 0 imax (s * 256)
        ((imax - imin).toNat + 1) img imin xs ys 0

theorem getD_default_of_le (l : List Nat) (i : Nat) (h : l.length ≤ i) :
    l.getD i 0 = 0 := by
  simp [List.getD_eq_getElem?_getD, List.getElem?_eq_none h]

theorem getD_set_ge_of (l : List Nat) (i v j : Nat) (hv : l.getD i 0 ≤ v) :
    l.getD j 0 ≤ (l.set i v).getD j 0 := by
  rcases eq_or_ne i j with rfl | hne
  · by_cases hj : i < l.length
    · rw [list_getD_set_self _ _ _ hj]; exact hv
    · rw [getD_default_of_le _ _ (by omega),
        getD_default_of_le _ _ (by simp only [List.length_set]; omega)]
  · rw [list_getD_set_ne _ _ _ _ hne]

theorem image_putpixel_max_raw_bpp (img : image_t) (x y : Int) (r g b a : Nat) :
    (image_putpixel_max_raw img x y r g b a).bpp = img.bpp := by
  obtain ⟨w, h, d, pxo⟩ := img
  cases pxo with
  | none => rfl
  | some px =>
    simp only [image_putpixel_max_raw]
    split <;> rfl

theorem image_putpixel_max_raw_byte_mono (img : image_t) (hd : img.bpp = 4)
    (x y : Int) (r g b a j : Nat) (hj : j % 4 < 3) :
    getByte img j ≤ getByte (image_putpixel_max_raw img x y r g b a) j := by
  obtain ⟨w, h, d, pxo⟩ := img
  simp only at hd; subst hd
  cases pxo with
  | none => exact le_refl _
  | some px =>
    simp only [image_putpixel_max_raw, getByte]
    by_cases hoob : coordOOB w h x y
    · rw [if_pos hoob]
    · rw [if_neg hoob]
      simp only
      have hp4 : pixBase w 4 x y % 4 = 0 := Nat.mul_mod_left _ 4
      set p := pixBase w 4 x y with hp
      have step1 : px.getD j 0 ≤ (px.set p (max (px.getD p 0) (byte r))).getD j 0 :=
        getD_set_ge_of _ _ _ _ (le_max_left _ _)
      have e1 : (px.set p (max (px.getD p 0) (byte r))).getD (p + 1) 0 = px.getD (p + 1) 0 :=
        list_getD_set_ne _ _ _ _ (by omega)
      have step2 : (px.set p (max (px.getD p 0) (byte r))).getD j 0 ≤
          ((px.set p (max (px.getD p 0) (byte r))).set (p + 1)
            (max (px.getD (p + 1) 0) (byte g))).getD j 0 :=
        getD_set_ge_of _ _ _ _ (by rw [e1]; exact le_max_left _ _)
      have e2 : ((px.set p (max (px.getD p 0) (byte r))).set (p + 1)
            (max (px.getD (p + 1) 0) (byte g))).getD (p + 2) 0 = px.getD (p + 2) 0 := by
        rw [list_getD_set_ne _ _ _ _ (by omega), list_getD_set_ne _ _ _ _ (by omega)]
      have step3 : ((px.set p (max (px.getD p 0) (byte r))).set (p + 1)
            (max (px.getD (p + 1) 0) (byte g))).getD j 0 ≤
          (((px.set p (max (px.getD p 0) (byte r))).set (p + 1)
            (max (px.getD (p + 1) 0) (byte g))).set (p + 2)
            (max (px.getD (p + 2) 0) (byte b))).getD j 0 :=
        getD_set_ge_of _ _ _ _ (by rw [e2]; exact le_max_left _ _)
      have step4 : ((((px.set p (max (px.getD p 0) (byte r))).set (p + 1)
            (max (px.getD (p + 1) 0) (byte g))).set (p + 2)
            (max (px.getD (p + 2) 0) (byte b))).set (p + 3) (byte a)).getD j 0 =
          (((px.set p (max (px.getD p 0) (byte r))).set (p + 1)
            (max (px.getD (p + 1) 0) (byte g))).set (p + 2)
            (max (px.getD (p + 2) 0) (byte b))).getD j 0 :=
        list_getD_set_ne _ _ _ _ (by omega)
      rw [step4]
      exact le_trans step1 (le_trans step2 step3)

theorem aaLoop_byte_mono (r g b a : Nat) (xd yd xpd ypd xp yp imax : Int) (p : ℚ)
    (fuel : Nat) (img : image_t) (i x y : Int) (e : ℚ)
    (hd : img.bpp = 4) (j : Nat) (hj : j % 4 < 3) :
    getByte img j ≤ getByte (aaLoop r g b a xd yd xpd ypd xp yp imax p fuel img i x y e) j := by
  induction fuel using Nat.strong_induction_on generalizing img i x y e with
  | _ fuel ih =>
    unfold aaLoop
    by_cases hfuel : fuel = 0
    · rw [if_pos hfuel]
    rw [if_neg hfuel]
    by_cases hstop : imax < i
    · rw [if_pos hstop]
    · rw [if_neg hstop]
      set c1 : Nat := (Int.floor e).toNat with hc1
      set img1 := image_putpixel_max_raw img (x + xp) (y + yp)
        ((r * c1) / 255) ((g * c1) / 255) ((b * c1) / 255) a with himg1
      set img2 := image_putpixel_max_raw img1 x y
        ((r * (255 - c1)) / 255) ((g * (255 - c1)) / 255) ((b * (255 - c1)) / 255) a with himg2
      have hb1 : img1.bpp = 4 := by rw [himg1, image_putpixel_max_raw_bpp]; exact hd
      have hb2 : img2.bpp = 4 := by rw [himg2, image_putpixel_max_raw_bpp]; exact hb1
      have m1 : getByte img j ≤ getByte img1 j :=
        image_putpixel_max_raw_byte_mono img hd _ _ _ _ _ _ j hj
      have m2 : getByte img1 j ≤ getByte img2 j :=
        image_putpixel_max_raw_byte_mono img1 hb1 _ _ _ _ _ _ j hj
      by_cases hwrap : (256 : ℚ) ≤ e + p
      · rw [if_pos hwrap]
        exact le_trans m1 (le_trans m2 (ih (fuel - 1) (by omega) img2 _ _ _ _ hb2))
      · rw [if_neg hwrap]
        exact le_trans m1 (le_trans m2 (ih (fuel - 1) (by omega) img2 _ _ _ _ hb2))

/-- C5 (amended): `image_line_aa` delegates purely vertical inputs to vline
and purely horizontal ones to hline; for every other line on an RGBA buffer
it writes only through `image_putpixel_max` with a pair of complementary
intensities per step, so no stored color byte (r, g or b channel) ever
decreases — the antialiased composite is non-destructive.  (A channel equal
to 255 gets no special treatment: it is attenuated to `(255*ci)/255 = ci`
like any other channel; see the counterexample.) -/
theorem aa_line_spec (img : image_t) (x1 y1 x2 y2 : Int) (r g b a : Nat) :
    (x1 = x2 → image_line_aa img x1 y1 x2 y2 r g b a = image_vline_raw img x1 y1 y2 r g b a) ∧
    (x1 ≠ x2 → y1 = y2 → image_line_aa img x1 y1 x2 y2 r g b a
        = image_hline_raw img x1 x2 y1 r g b a) ∧
    (img.bpp = 4 → x1 ≠ x2 → y1 ≠ y2 → ∀ j : Nat, j % 4 < 3 →
      getByte img j ≤ getByte (image_line_aa img x1 y1 x2 y2 r g b a) j) := by
  refine ⟨?_, ?_, ?_⟩
  · intro hx
    simp only [image_line_aa]
    rw [if_pos hx]
  · intro hx hy
    simp only [image_line_aa]
    rw [if_neg hx, if_pos hy]
  · intro hd hx hy j hj
    simp only [image_line_aa]
    rw [if_neg hx, if_neg hy]
    by_cases hmajor : (y2 - y1).natAbs < (x2 - x1).natAbs
    · rw [if_pos hmajor]
      exact aaLoop_byte_mono _ _ _ _ _ _ _ _ _ _ _ _ _ img _ _ _ _ hd j hj
    · rw [if_neg hmajor]
      exact aaLoop_byte_mono _ _ _ _ _ _ _ _ _ _ _ _ _ img _ _ _ _ hd j hj

theorem aa_line_spec_witness :
    ((⟨3, 3, 4, some (List.replicate 36 0)⟩ : image_t).bpp = 4 ∧ (0 : Int) ≠ 2 ∧
      (0 : Int) ≠ 2 ∧ 0 % 4 < 3) ∧
    getByte (⟨3, 3, 4, some (List.replicate 36 0)⟩ : image_t) 0
      ≤ getByte (image_line_aa ⟨3, 3, 4, some (List.replicate 36 0)⟩ 0 0 2 2 255 0 0 9) 0 :=
  ⟨⟨rfl, by decide, by decide, by decide⟩,
    (aa_line_spec ⟨3, 3, 4, some (List.replicate 36 0)⟩ 0 0 2 2 255 0 0 9).2.2
      rfl (by decide) (by decide) 0 (by decide)⟩

theorem aaLoop_c5_entry :
    image_line_aa ⟨3, 3, 4, some (List.replicate 36 0)⟩ 0 0 2 2 255 0 0 9
      = aaLoop 255 0 0 9 0 1 1 0 1 0 2 (256 : ℚ) 3
          ⟨3, 3, 4, some (List.replicate 36 0)⟩ 0 0 0 0 := by
  norm_num [image_line_aa]
  rfl

theorem aaLoop_c5_step (fuel : Nat) (hf : fuel ≠ 0) (img : image_t) (i x y : Int)
    (hi : ¬ (2 : Int) < i) :
    aaLoop 255 0 0 9 0 1 1 0 1 0 2 (256 : ℚ) fuel img i x y 0
      = aaLoop 255 0 0 9 0 1 1 0 1 0 2 (256 : ℚ) (fuel - 1)
          (image_putpixel_max_raw (image_putpixel_max_raw img (x + 1) y 0 0 0 9)
            x y 255 0 0 9)
          (i + 1) (x + 1) (y + 1) 0 := by
  conv_lhs => rw [aaLoop]
  rw [if_neg hf, if_neg hi]
  norm_num

theorem aaLoop_c5_stop (img : image_t) (i x y : Int) (e : ℚ) :
    aaLoop 255 0 0 9 0 1 1 0 1 0 2 (256 : ℚ) 0 img i x y e = img := by
  rw [aaLoop]
  norm_num

/-- C5 (counterexample): drawing the antialiased diagonal (0,0)–(2,2) with
color (255,0,0,9) on a cleared 3x3 RGBA buffer: the first loop step writes
the pixel pair (1,0) and (0,0) with intensities c1 = 0 and c2 = 255, and the
red channel — equal to 255 — is attenuated to `(255*c1)/255 = 0` at (1,0)
just like any other channel, so the red byte of pixel (1,0) (flat index 4)
stays 0.  The claim that a color channel equal to 255 is written at full
intensity 255 unconditionally on both pixels of each step is false for
`image_line_aa`. -/
theorem aa_line_255_attenuated :
    getByte (image_line_aa ⟨3, 3, 4, some (List.replicate 36 0)⟩ 0 0 2 2 255 0 0 9) 4 = 0
      ∧ (0 : Nat) ≠ 255 := by
  rw [aaLoop_c5_entry, aaLoop_c5_step 3 (by decide) _ 0 0 0 (by decide)]
  norm_num
  rw [aaLoop_c5_step 2 (by decide) _ 1 1 1 (by decide)]
  norm_num
  rw [aaLoop_c5_step 1 (by decide) _ 2 2 2 (by decide)]
  norm_num
  rw [aaLoop_c5_stop]
  decide

/-- Clamp of an accumulated channel to [0,255]
(`r = (r < 0) ? 0 : (r > 255 ? 255 : r)`, src/kernels.c line 263). -/
def clampChan (v : Int) : Nat := (if v < 0 then 0 else if 255 < v then 255 else v).toNat

/-- The weighted-sum accumulation of `apply_kernel` (src/kernels.c lines
248-258): for dy, dx in [-limit, limit], read the neighbour through
`image_getpixel` and add `channel * kernel[dy+limit][dx+limit]`.  Loop
variables are shifted to j = dy+limit, i = dx+limit ∈ [0, 2·limit]. -/
def convAccum (img : image_t) (kernel : Nat → Nat → Int) (limit : Nat) (x y : Int) :
    Int × Int × Int :=
  (List.range (2 * limit + 1)).foldl (fun acc (j : Nat) =>
    (List.range (2 * limit + 1)).foldl (fun acc2 (i : Nat) =>
      let c := image_getpixel_k img (x + (i : Int) - (limit : Int)) (y + (j : Int) - (limit : Int))
      (acc2.1 + (c.1 : Int) * kernel j i, acc2.2.1 + (c.2.1 : Int) * kernel j i,
        acc2.2.2 + (c.2.2.1 : Int) * kernel j i)) acc) ((0 : Int), (0 : Int), (0 : Int))

/-- Interior pixels scanned by `apply_kernel`: y from limit to height-limit-1
(outer), x from limit to width-limit-1 (inner).  The C loop bound
`tmp.height - limit` is unsigned; when `limit` exceeds a dimension the C
subtraction wraps and the loop scans a huge range reading indeterminate
stack values (undefined behaviour) — the model's `Nat` subtraction makes the
range empty instead, and every theorem below assumes the kernel fits the
image. -/
def interiorPts (w h limit : Nat) : List (Nat × Nat) :=
  ((List.range (h - 2 * limit)).map (· + limit)).flatMap (fun y =>
    ((List.range (w - 2 * limit)).map (· + limit)).map (fun x => (x, y)))

/-- `apply_kernel` of src/kernels.c (line 228): no-op on NULL storage,
non-positive or even size, or zero divisor; otherwise clone the image
(allocation assumed to succeed; on failure C returns with the image
unchanged), accumulate the weighted sums over the original for every
interior pixel, divide by the divisor (C `int` division, `Int.tdiv`), clamp
to [0,255], and write into the clone with alpha 0 through the kernels.c
`image_putpixel`; finally the clone is copied back.  The fold below writes
into the clone `tmp` (starting as a byte-for-byte copy) while all reads go
to the original image, exactly as the clone-then-write pattern does. -/
def apply_kernel (img : image_t) (size : Int) (kernel : Nat → Nat → Int)
    (divisor : Int) : image_t :=
  match img.pixels with
  | none => img
  | some _ =>
    if size ≤ 0 ∨ size % 2 = 0 ∨ divisor = 0 then img
    else
      let limit := (size.tdiv 2).toNat
      (interiorPts img.width img.height limit).foldl
        (fun tmp p =>
          let acc := convAccum img kernel limit (p.1 : Int) (p.2 : Int)
          image_putpixel_k tmp (p.1 : Int) (p.2 : Int)
            (clampChan (acc.1.tdiv divisor)) (clampChan (acc.2.1.tdiv divisor))
            (clampChan (acc.2.2.tdiv divisor)) 0) img

/-- `filter_smooth_3x3_block` of src/kernels.c (line 284): the 3x3 all-ones
kernel with divisor 9. -/
def filter_smooth_3x3_block (img : image_t) : image_t :=
  apply_kernel img 3 (fun _ _ => 1) 9

/-- A depth-3 buffer of uniform color (r0, g0, b0): byte j holds the channel
j % 3 of the color. -/
def uniformRGB (w h r0 g0 b0 : Nat) : List Nat :=
  (List.range (w * h * 3)).map (fun j => if j % 3 = 0 then r0 else if j % 3 = 1 then g0 else b0)

/-- C4 (counterexample): the claim fails on the code at two concrete inputs.
(1) Depth 1: on a 3x3 grayscale buffer of uniform value 7, the all-zeros 3x3
kernel with divisor 1 (a valid odd kernel and non-zero divisor) makes the
interior write at pixel (1,1) store three bytes — kernels.c `image_putpixel`
has no grayscale branch — so byte 5, which belongs to the border pixel
(2,1), becomes 0 instead of staying 7.  (2) Depth 4: on a 3x3 RGBA buffer
with every byte 7 (a uniform color), the 3x3 all-ones/9 box kernel forces
the alpha of the interior pixel (1,1) (flat byte index 19) to 0, so the
interior pixel is not left unchanged. -/
theorem apply_kernel_corrupts :
    (getByte (apply_kernel ⟨3, 3, 1, some (List.replicate 9 7)⟩ 3 (fun _ _ => 0) 1) 5 = 0
      ∧ getByte (⟨3, 3, 1, some (List.replicate 9 7)⟩ : image_t) 5 = 7) ∧
    (getByte (apply_kernel ⟨3, 3, 4, some (List.replicate 36 7)⟩ 3 (fun _ _ => 1) 9) 19 = 0
      ∧ getByte (⟨3, 3, 4, some (List.replicate 36 7)⟩ : image_t) 19 = 7) := by
  exact ⟨⟨by decide, by decide⟩, ⟨by decide, by decide⟩⟩

theorem pix_index_inj (A B c c' d : Nat) (hc : c < d) (hc' : c' < d)
    (h : A * d + c = B * d + c') : A = B ∧ c = c' := by
  rcases Nat.lt_trichotomy A B with hAB | hAB | hAB
  · exfalso
    have h1 : A * d + c < (A + 1) * d := by
      have : A * d + c < A * d + d := by omega
      calc A * d + c < A * d + d := this
        _ = (A + 1) * d := by ring
    have h2 : (A + 1) * d ≤ B * d := Nat.mul_le_mul_right d (by omega)
    omega
  · refine ⟨hAB, ?_⟩
    subst hAB
    omega
  · exfalso
    have h1 : B * d + c' < (B + 1) * d := by
      have : B * d + c' < B * d + d := by omega
      calc B * d + c' < B * d + d := this
        _ = (B + 1) * d := by ring
    have h2 : (B + 1) * d ≤ A * d := Nat.mul_le_mul_right d (by omega)
    omega

theorem pixBase_natCast (w d : Nat) (x y : Nat) :
    pixBase w d (x : Int) (y : Int) = (x + y * w) * d := by
  unfold pixBase
  have : ((x : Int) + (y : Int) * (w : Int)) = ((x + y * w : Nat) : Int) := by
    push_cast; ring
  rw [this, Int.toNat_natCast]

theorem image_putpixel_k_dims (img : image_t) (x y : Int) (r g b a : Nat) :
    (image_putpixel_k img x y r g b a).width = img.width ∧
    (image_putpixel_k img x y r g b a).height = img.height ∧
    (image_putpixel_k img x y r g b a).bpp = img.bpp := by
  obtain ⟨w, h, d, pxo⟩ := img
  cases pxo with
  | none => exact ⟨rfl, rfl, rfl⟩
  | some px =>
    simp only [image_putpixel_k]
    split
    · exact ⟨rfl, rfl, rfl⟩
    · exact ⟨rfl, rfl, rfl⟩

theorem image_putpixel_k_getByte_ne (im : image_t) (x y : Int) (r g b a : Nat) (j : Nat)
    (hne3 : ∀ c : Nat, c < 3 → j ≠ pixBase im.width im.bpp x y + c)
    (hne4 : im.bpp = 4 → j ≠ pixBase im.width im.bpp x y + 3) :
    getByte (image_putpixel_k im x y r g b a) j = getByte im j := by
  obtain ⟨w, h, d, pxo⟩ := im
  cases pxo with
  | none => rfl
  | some px =>
    simp only [image_putpixel_k, getByte] at hne3 hne4 ⊢
    by_cases hoob : coordOOB w h x y
    · rw [if_pos hoob]
    · rw [if_neg hoob]
      simp only
      by_cases hd4 : d = 4
      · rw [if_pos hd4]
        rw [list_getD_set_ne _ _ _ _ (fun hh => hne4 hd4 hh.symm),
          list_getD_set_ne _ _ _ _ (fun hh => hne3 2 (by omega) hh.symm),
          list_getD_set_ne _ _ _ _ (fun hh => hne3 1 (by omega) hh.symm),
          list_getD_set_ne _ _ _ _ (fun hh => hne3 0 (by omega) (by omega))]
      · rw [if_neg hd4]
        rw [list_getD_set_ne _ _ _ _ (fun hh => hne3 2 (by omega) hh.symm),
          list_getD_set_ne _ _ _ _ (fun hh => hne3 1 (by omega) hh.symm),
          list_getD_set_ne _ _ _ _ (fun hh => hne3 0 (by omega) (by omega))]

theorem mem_interiorPts (w h limit : Nat) (p : Nat × Nat) :
    p ∈ interiorPts w h limit ↔
      limit ≤ p.1 ∧ p.1 < w - limit ∧ limit ≤ p.2 ∧ p.2 < h - limit := by
  obtain ⟨px, py⟩ := p
  simp only [interiorPts, List.mem_flatMap, List.mem_map, List.mem_range]
  constructor
  · rintro ⟨y, ⟨y1, hy1, rfl⟩, x1, ⟨x0, hx0, rfl⟩, heq⟩
    have e1 : x0 + limit = px := congrArg Prod.fst heq
    have e2 : y1 + limit = py := congrArg Prod.snd heq
    omega
  · rintro ⟨h1, h2, h3, h4⟩
    exact ⟨py, ⟨py - limit, by omega, by omega⟩, px, ⟨px - limit, by omega, by omega⟩, rfl⟩

theorem foldl_getByte_inv {β : Type} (f : image_t → β → image_t) (P : image_t → Prop)
    (j : Nat) :
    ∀ (l : List β) (img : image_t), P img →
    (∀ im p, p ∈ l → P im → P (f im p)) →
    (∀ im p, p ∈ l → P im → getByte (f im p) j = getByte im j) →
    getByte (l.foldl f img) j = getByte img j := by
  intro l
  induction l with
  | nil => intro img _ _ _; rfl
  | cons hd tl ih =>
    intro img hP hpres hstep
    simp only [List.foldl_cons]
    rw [ih (f img hd) (hpres img hd (by simp) hP)
        (fun im p hp hPim => hpres im p (by simp [hp]) hPim)
        (fun im p hp hPim => hstep im p (by simp [hp]) hPim)]
    exact hstep img hd (by simp) hP

theorem natCast_tdiv_two_toNat (n : Nat) : ((n : Int).tdiv 2).toNat = n / 2 := rfl

theorem apply_kernel_border_preserved
    (w h d : Nat) (px : List Nat) (hd34 : d = 3 ∨ d = 4)
    (n : Nat) (hn0 : 0 < n) (hodd : n % 2 = 1) (hnw : n ≤ w) (hnh : n ≤ h)
    (divisor : Int) (hdiv : divisor ≠ 0) (kernel : Nat → Nat → Int)
    (x y c : Nat) (hc : c < d) (hx : x < w) (hy : y < h)
    (hborder : x < n / 2 ∨ y < n / 2 ∨ w - n / 2 ≤ x ∨ h - n / 2 ≤ y) :
    getByte (apply_kernel ⟨w, h, d, some px⟩ (n : Int) kernel divisor) ((x + y * w) * d + c)
      = px.getD ((x + y * w) * d + c) 0 := by
  have hcond : ¬((n : Int) ≤ 0 ∨ (n : Int) % 2 = 0 ∨ divisor = 0) := by
    push_neg
    refine ⟨by exact_mod_cast hn0, ?_, hdiv⟩
    omega
  simp only [apply_kernel]
  rw [if_neg hcond, natCast_tdiv_two_toNat]
  have hmain : getByte ((interiorPts w h (n / 2)).foldl
      (fun tmp p =>
        let acc := convAccum ⟨w, h, d, some px⟩ kernel (n / 2) (p.1 : Int) (p.2 : Int)
        image_putpixel_k tmp (p.1 : Int) (p.2 : Int)
          (clampChan (acc.1.tdiv divisor)) (clampChan (acc.2.1.tdiv divisor))
          (clampChan (acc.2.2.tdiv divisor)) 0) ⟨w, h, d, some px⟩)
      ((x + y * w) * d + c) = getByte (⟨w, h, d, some px⟩ : image_t) ((x + y * w) * d + c) := by
    apply foldl_getByte_inv _ (fun im => im.width = w ∧ im.bpp = d)
    · exact ⟨rfl, rfl⟩
    · intro im p _ hPim
      dsimp only
      constructor
      · rw [(image_putpixel_k_dims _ _ _ _ _ _ _).1]; exact hPim.1
      · rw [(image_putpixel_k_dims _ _ _ _ _ _ _).2.2]; exact hPim.2
    · intro im p hp hPim
      dsimp only
      rw [mem_interiorPts] at hp
      obtain ⟨hp1, hp2, hp3, hp4⟩ := hp
      have hbase : pixBase im.width im.bpp (p.1 : Int) (p.2 : Int) = (p.1 + p.2 * w) * d := by
        rw [hPim.1, hPim.2, pixBase_natCast]
      apply image_putpixel_k_getByte_ne
      · intro c' hc' heq
        rw [hbase] at heq
        have hinj := pix_index_inj (x + y * w) (p.1 + p.2 * w) c c' d hc (by omega) heq
        have hinj2 := pix_index_inj y p.2 x p.1 w hx (by omega)
          (by have := hinj.1; omega)
        omega
      · intro hbpp4 heq
        rw [hbase] at heq
        have hd4 : d = 4 := by rw [← hPim.2]; exact hbpp4
        have hinj := pix_index_inj (x + y * w) (p.1 + p.2 * w) c 3 d hc (by omega) heq
        have hinj2 := pix_index_inj y p.2 x p.1 w hx (by omega)
          (by have := hinj.1; omega)
        omega
  exact hmain

theorem list_set_getD_eq (l : List Nat) (i v : Nat) (hv : l.getD i 0 = v)
    (hi : i < l.length) : l.set i v = l := by
  induction l generalizing i with
  | nil => simp at hi
  | cons hd tl ih =>
    cases i with
    | zero =>
      simp only [List.getD, List.get?] at hv
      simp [List.set, hv.symm]
    | succ m =>
      simp only [List.set]
      rw [ih m (by simpa [List.getD, List.get?] using hv) (by simpa using hi)]

theorem uniformRGB_getD (w h r0 g0 b0 : Nat) (j : Nat) (hj : j < w * h * 3) :
    (uniformRGB w h r0 g0 b0).getD j 0
      = if j % 3 = 0 then r0 else if j % 3 = 1 then g0 else b0 := by
  unfold uniformRGB
  rw [List.getD_eq_getElem?_getD, List.getElem?_map]
  simp [List.getElem?_range, hj]

theorem uniformRGB_length (w h r0 g0 b0 : Nat) :
    (uniformRGB w h r0 g0 b0).length = w * h * 3 := by
  simp [uniformRGB]

theorem getpixel_k_uniform (w h r0 g0 b0 : Nat) (x y : Int)
    (hx0 : 0 ≤ x) (hxw : x < (w : Int)) (hy0 : 0 ≤ y) (hyh : y < (h : Int)) :
    image_getpixel_k ⟨w, h, 3, some (uniformRGB w h r0 g0 b0)⟩ x y = (r0, g0, b0, 255) := by
  have hnoob : ¬ coordOOB w h x y := by
    simp only [coordOOB]; push_neg; exact ⟨hx0, hy0, hxw, hyh⟩
  have hmod : pixBase w 3 x y % 3 = 0 := Nat.mul_mod_left _ 3
  have h0 : pixBase w 3 x y + 0 < w * h * 3 :=
    pixBase_add_lt w h 3 x y hx0 hxw hy0 hyh 0 (by omega)
  have h1 : pixBase w 3 x y + 1 < w * h * 3 :=
    pixBase_add_lt w h 3 x y hx0 hxw hy0 hyh 1 (by omega)
  have h2 : pixBase w 3 x y + 2 < w * h * 3 :=
    pixBase_add_lt w h 3 x y hx0 hxw hy0 hyh 2 (by omega)
  simp only [image_getpixel_k]
  rw [if_neg hnoob]
  rw [uniformRGB_getD w h r0 g0 b0 _ (by omega),
    uniformRGB_getD w h r0 g0 b0 _ h1, uniformRGB_getD w h r0 g0 b0 _ h2]
  rw [if_pos (by omega : pixBase w 3 x y % 3 = 0)]
  rw [if_neg (by omega : ¬ (pixBase w 3 x y + 1) % 3 = 0),
    if_pos (by omega : (pixBase w 3 x y + 1) % 3 = 1)]
  rw [if_neg (by omega : ¬ (pixBase w 3 x y + 2) % 3 = 0),
    if_neg (by omega : ¬ (pixBase w 3 x y + 2) % 3 = 1)]
  norm_num

theorem convAccum_uniform (w h r0 g0 b0 : Nat) (x y : Nat)
    (hx1 : 1 ≤ x) (hx2 : x < w - 1) (hy1 : 1 ≤ y) (hy2 : y < h - 1) (hw : 3 ≤ w) (hh : 3 ≤ h) :
    convAccum ⟨w, h, 3, some (uniformRGB w h r0 g0 b0)⟩ (fun _ _ => 1) 1
        (x : Int) (y : Int)
      = (9 * (r0 : Int), 9 * (g0 : Int), 9 * (b0 : Int)) := by
  have hpix : ∀ i j : Nat, i < 3 → j < 3 →
      image_getpixel_k ⟨w, h, 3, some (uniformRGB w h r0 g0 b0)⟩
        ((x : Int) + (i : Int) - ((1 : Nat) : Int)) ((y : Int) + (j : Int) - ((1 : Nat) : Int))
        = (r0, g0, b0, 255) := by
    intro i j hi hj
    apply getpixel_k_uniform <;> omega
  unfold convAccum
  rw [show 2 * 1 + 1 = 3 from rfl, show List.range 3 = [0, 1, 2] from rfl]
  simp only [List.foldl_cons, List.foldl_nil,
    hpix 0 0 (by omega) (by omega), hpix 1 0 (by omega) (by omega),
    hpix 2 0 (by omega) (by omega), hpix 0 1 (by omega) (by omega),
    hpix 1 1 (by omega) (by omega), hpix 2 1 (by omega) (by omega),
    hpix 0 2 (by omega) (by omega), hpix 1 2 (by omega) (by omega),
    hpix 2 2 (by omega) (by omega)]
  simp only [Prod.mk.injEq]
  refine ⟨by ring, by ring, by ring⟩

theorem clampChan_of_byte (v : Nat) (hv : v < 256) : clampChan (v : Int) = v := by
  unfold clampChan
  rw [if_neg (by omega), if_neg (by omega)]
  exact Int.toNat_natCast v

theorem foldl_id {β : Type} (f : image_t → β → image_t) :
    ∀ (l : List β) (img : image_t), (∀ p ∈ l, f img p = img) → l.foldl f img = img := by
  intro l
  induction l with
  | nil => intro img _; rfl
  | cons hd tl ih =>
    intro img hstep
    simp only [List.foldl_cons]
    rw [hstep hd (by simp)]
    exact ih img (fun p hp => hstep p (by simp [hp]))

theorem putpixel_k_uniform_id (w h r0 g0 b0 : Nat) (x y : Nat)
    (hr : r0 < 256) (hg : g0 < 256) (hb : b0 < 256)
    (hx : x < w) (hy : y < h) :
    image_putpixel_k ⟨w, h, 3, some (uniformRGB w h r0 g0 b0)⟩ (x : Int) (y : Int) r0 g0 b0 0
      = ⟨w, h, 3, some (uniformRGB w h r0 g0 b0)⟩ := by
  have hnoob : ¬ coordOOB w h (x : Int) (y : Int) := by
    simp only [coordOOB]; push_neg
    refine ⟨by omega, by omega, by exact_mod_cast hx, by exact_mod_cast hy⟩
  have hmod : pixBase w 3 (x : Int) (y : Int) % 3 = 0 := Nat.mul_mod_left _ 3
  have h0 : pixBase w 3 (x : Int) (y : Int) + 0 < w * h * 3 :=
    pixBase_add_lt w h 3 _ _ (by omega) (by exact_mod_cast hx) (by omega)
      (by exact_mod_cast hy) 0 (by omega)
  have h1 : pixBase w 3 (x : Int) (y : Int) + 1 < w * h * 3 :=
    pixBase_add_lt w h 3 _ _ (by omega) (by exact_mod_cast hx) (by omega)
      (by exact_mod_cast hy) 1 (by omega)
  have h2 : pixBase w 3 (x : Int) (y : Int) + 2 < w * h * 3 :=
    pixBase_add_lt w h 3 _ _ (by omega) (by exact_mod_cast hx) (by omega)
      (by exact_mod_cast hy) 2 (by omega)
  have hbr : byte r0 = r0 := Nat.mod_eq_of_lt hr
  have hbg : byte g0 = g0 := Nat.mod_eq_of_lt hg
  have hbb : byte b0 = b0 := Nat.mod_eq_of_lt hb
  simp only [image_putpixel_k]
  rw [if_neg hnoob]
  rw [if_neg (by omega : ¬ (3 : Nat) = 4)]
  rw [hbr, hbg, hbb]
  rw [list_set_getD_eq _ _ _
      (by rw [list_getD_set_ne _ _ _ _ (by omega), list_getD_set_ne _ _ _ _ (by omega),
        uniformRGB_getD w h r0 g0 b0 _ h2, if_neg (by omega), if_neg (by omega)])
      (by simp only [List.length_set]; rw [uniformRGB_length]; omega)]
  rw [list_set_getD_eq _ _ _
      (by rw [list_getD_set_ne _ _ _ _ (by omega),
        uniformRGB_getD w h r0 g0 b0 _ h1, if_neg (by omega), if_pos (by omega)])
      (by simp only [List.length_set]; rw [uniformRGB_length]; omega)]
  rw [list_set_getD_eq _ _ _
      (by rw [uniformRGB_getD w h r0 g0 b0 _ (by omega), if_pos (by omega)])
      (by rw [uniformRGB_length]; omega)]

theorem box_uniform_identity (w h r0 g0 b0 : Nat) (hw : 3 ≤ w) (hh : 3 ≤ h)
    (hr : r0 < 256) (hg : g0 < 256) (hb : b0 < 256) :
    filter_smooth_3x3_block ⟨w, h, 3, some (uniformRGB w h r0 g0 b0)⟩
      = ⟨w, h, 3, some (uniformRGB w h r0 g0 b0)⟩ := by
  unfold filter_smooth_3x3_block
  simp only [apply_kernel]
  rw [if_neg (by norm_num : ¬((3 : Int) ≤ 0 ∨ (3 : Int) % 2 = 0 ∨ (9 : Int) = 0))]
  rw [show ((3 : Int).tdiv 2).toNat = 1 from rfl]
  apply foldl_id
  intro p hp
  rw [mem_interiorPts] at hp
  obtain ⟨hp1, hp2, hp3, hp4⟩ := hp
  rw [convAccum_uniform w h r0 g0 b0 p.1 p.2 hp1 hp2 hp3 hp4 hw hh]
  rw [Int.mul_tdiv_cancel_left _ (by norm_num), Int.mul_tdiv_cancel_left _ (by norm_num),
    Int.mul_tdiv_cancel_left _ (by norm_num)]
  rw [clampChan_of_byte r0 hr, clampChan_of_byte g0 hg, clampChan_of_byte b0 hb]
  exact putpixel_k_uniform_id w h r0 g0 b0 p.1 p.2 hr hg hb (by omega) (by omega)

/-- C4 (amended): for every odd positive kernel size that fits the image and
every non-zero divisor, `apply_kernel` on a depth-3 or depth-4 buffer leaves
every byte of every border pixel (within floor(N/2) of an edge) exactly as
in the input; and the 3x3 all-ones/9 box filter applied to a depth-3 buffer
of uniform color leaves the whole buffer byte-for-byte unchanged.  (Depth-1
buffers are excluded — the kernels.c `image_putpixel` used by the filter
writes three bytes per pixel and corrupts neighbours — and on depth-4
buffers interior pixels are not preserved because the filter forces their
alpha to 0; see the counterexample.) -/
theorem apply_kernel_spec :
    (∀ (w h d : Nat) (px : List Nat), (d = 3 ∨ d = 4) →
      ∀ (n : Nat), 0 < n → n % 2 = 1 → n ≤ w → n ≤ h →
      ∀ (divisor : Int), divisor ≠ 0 → ∀ (kernel : Nat → Nat → Int),
      ∀ (x y c : Nat), c < d → x < w → y < h →
      (x < n / 2 ∨ y < n / 2 ∨ w - n / 2 ≤ x ∨ h - n / 2 ≤ y) →
      getByte (apply_kernel ⟨w, h, d, some px⟩ (n : Int) kernel divisor)
          ((x + y * w) * d + c)
        = px.getD ((x + y * w) * d + c) 0) ∧
    (∀ (w h r0 g0 b0 : Nat), 3 ≤ w → 3 ≤ h → r0 < 256 → g0 < 256 → b0 < 256 →
      filter_smooth_3x3_block ⟨w, h, 3, some (uniformRGB w h r0 g0 b0)⟩
        = ⟨w, h, 3, some (uniformRGB w h r0 g0 b0)⟩) :=
  ⟨fun w h d px hd34 n hn0 hodd hnw hnh divisor hdiv kernel x y c hc hx hy hborder =>
    apply_kernel_border_preserved w h d px hd34 n hn0 hodd hnw hnh divisor hdiv kernel
      x y c hc hx hy hborder,
   fun w h r0 g0 b0 hw hh hr hg hb => box_uniform_identity w h r0 g0 b0 hw hh hr hg hb⟩

theorem apply_kernel_spec_witness :
    (((3 : Nat) = 3 ∨ (3 : Nat) = 4) ∧ 0 < 3 ∧ 3 % 2 = 1 ∧ 3 ≤ 3 ∧ (0 : Nat) < 3 ∧
      (0 : Nat) < 3 ∧ (7 : Int) ≠ 0 ∧ ((0 : Nat) < 3 / 2 ∨ (0 : Nat) < 3 / 2 ∨
        (3 : Nat) - 3 / 2 ≤ 0 ∨ (3 : Nat) - 3 / 2 ≤ 0) ∧
      3 ≤ 3 ∧ (5 : Nat) < 256) ∧
    getByte (apply_kernel ⟨3, 3, 3, some (List.replicate 27 5)⟩ ((3 : Nat) : Int)
        (fun _ _ => 2) 7) ((0 + 0 * 3) * 3 + 0)
      = (List.replicate 27 5).getD ((0 + 0 * 3) * 3 + 0) 0 ∧
    filter_smooth_3x3_block ⟨3, 3, 3, some (uniformRGB 3 3 5 6 7)⟩
      = ⟨3, 3, 3, some (uniformRGB 3 3 5 6 7)⟩ :=
  ⟨⟨Or.inl rfl, by decide, by decide, by decide, by decide, by decide, by decide,
      Or.inl (by decide), by decide, by decide⟩,
    apply_kernel_spec.1 3 3 3 (List.replicate 27 5) (Or.inl rfl) 3 (by decide) (by decide)
      (by decide) (by decide) 7 (by decide) (fun _ _ => 2) 0 0 0 (by decide) (by decide)
      (by decide) (Or.inl (by decide)),
    apply_kernel_spec.2 3 3 5 6 7 (by decide) (by decide) (by decide) (by decide) (by decide)⟩

/-- The per-pixel escape-time loop of `render_julia` (src/renderer.c lines
66-79): `while (i < maxiter) { zx2 = zx*zx; zy2 = zy*zy; if (zx2+zy2 > 4.0)
break; zy = 2*zx*zy + cy; zx = zx2 - zy2 + cx; i++; }`, returning the
iteration count i.  (cx, cy) is the rule's constant and (zx, zy) the seed —
for the Julia rule the seed is the mapped pixel coordinate; for the
Mandelbrot rule the seed is 0 and (cx, cy) the mapped pixel.  C doubles are
modelled over ℚ; `maxiter` plays the role of the remaining iteration budget
`maxiter - i`. -/
def escapeCount (cx cy zx zy : ℚ) (maxiter : Nat) : Nat :=
  if maxiter = 0 then 0
  else if 4 < zx * zx + zy * zy then 0
  else escapeCount cx cy (zx * zx - zy * zy + cx) (2 * zx * zy + cy) (maxiter - 1) + 1
termination_by maxiter
decreasing_by omega

/-- The z ← z² + c trajectory from a seed: `traj cx cy z j` is the j-th
iterate read by the loop above. -/
def traj (cx cy : ℚ) (z : ℚ × ℚ) : Nat → ℚ × ℚ
  | 0 => z
  | j + 1 => traj cx cy (z.1 * z.1 - z.2 * z.2 + cx, 2 * z.1 * z.2 + cy) j

/-- Squared magnitude |z|² compared against the bailout 4.0. -/
def normSq (z : ℚ × ℚ) : ℚ := z.1 * z.1 + z.2 * z.2

/-- The per-pixel loop of `draw_fractal_` (src/sdl_fract_viewer_2/src/main.c
lines 142-152): like the escape-time loop but with `zx = -fabs(zx)` executed
before the bailout test, so the imaginary update uses the negated real part
(`zy = 2*(-|zx|)*zy + cy`) while the real update uses the squares of the
pre-negation value.  The fixed iteration cap in the source is 150. -/
def draw_fractal_count (cx cy zx zy : ℚ) (maxiter : Nat) : Nat :=
  if maxiter = 0 then 0
  else
    if 4 < zx * zx + zy * zy then 0
    else draw_fractal_count cx cy (zx * zx - zy * zy + cx) (2 * (-|zx|) * zy + cy)
      (maxiter - 1) + 1
termination_by maxiter
decreasing_by omega

theorem escapeCount_le (cx cy : ℚ) : ∀ (n : Nat) (zx zy : ℚ),
    escapeCount cx cy zx zy n ≤ n := by
  intro n
  induction n using Nat.strong_induction_on with
  | _ n ih =>
    intro zx zy
    unfold escapeCount
    by_cases h0 : n = 0
    · simp [h0]
    rw [if_neg h0]
    by_cases hesc : 4 < zx * zx + zy * zy
    · rw [if_pos hesc]; omega
    · rw [if_neg hesc]
      have := ih (n - 1) (by omega) (zx * zx - zy * zy + cx) (2 * zx * zy + cy)
      omega

theorem draw_fractal_count_le (cx cy : ℚ) : ∀ (n : Nat) (zx zy : ℚ),
    draw_fractal_count cx cy zx zy n ≤ n := by
  intro n
  induction n using Nat.strong_induction_on with
  | _ n ih =>
    intro zx zy
    unfold draw_fractal_count
    by_cases h0 : n = 0
    · simp [h0]
    rw [if_neg h0]
    by_cases hesc : 4 < zx * zx + zy * zy
    · rw [if_pos hesc]; omega
    · rw [if_neg hesc]
      have := ih (n - 1) (by omega) (zx * zx - zy * zy + cx) (2 * (-|zx|) * zy + cy)
      omega

theorem escapeCount_first_escape (cx cy : ℚ) : ∀ (n : Nat) (zx zy : ℚ),
    (escapeCount cx cy zx zy n < n →
      4 < normSq (traj cx cy (zx, zy) (escapeCount cx cy zx zy n))) ∧
    (∀ j, j < escapeCount cx cy zx zy n → normSq (traj cx cy (zx, zy) j) ≤ 4) := by
  intro n
  induction n using Nat.strong_induction_on with
  | _ n ih =>
    intro zx zy
    unfold escapeCount
    by_cases h0 : n = 0
    · simp [h0]
    rw [if_neg h0]
    by_cases hesc : 4 < zx * zx + zy * zy
    · rw [if_pos hesc]
      constructor
      · intro _
        simpa [traj, normSq] using hesc
      · intro j hj
        omega
    · rw [if_neg hesc]
      have hrec := ih (n - 1) (by omega) (zx * zx - zy * zy + cx) (2 * zx * zy + cy)
      constructor
      · intro hlt
        have h1 : escapeCount cx cy (zx * zx - zy * zy + cx) (2 * zx * zy + cy) (n - 1)
            < n - 1 := by omega
        have h2 := hrec.1 h1
        simpa [traj] using h2
      · intro j hj
        cases j with
        | zero => simpa [traj, normSq] using le_of_not_lt hesc
        | succ m =>
          have h2 := hrec.2 m (by omega)
          simpa [traj] using h2

theorem escapeCount_origin (n : Nat) : escapeCount 0 0 0 0 n = n := by
  induction n using Nat.strong_induction_on with
  | _ n ih =>
    unfold escapeCount
    by_cases h0 : n = 0
    · simp [h0]
    rw [if_neg h0, if_neg (by norm_num)]
    rw [show (0 : ℚ) * 0 - 0 * 0 + 0 = 0 by norm_num, show 2 * (0 : ℚ) * 0 + 0 = 0 by norm_num]
    rw [ih (n - 1) (by omega)]
    omega

theorem draw_fractal_count_origin (n : Nat) : draw_fractal_count 0 0 0 0 n = n := by
  induction n using Nat.strong_induction_on with
  | _ n ih =>
    unfold draw_fractal_count
    by_cases h0 : n = 0
    · simp [h0]
    rw [if_neg h0, if_neg (by norm_num)]
    rw [show (0 : ℚ) * 0 - 0 * 0 + 0 = 0 by norm_num,
      show 2 * (-|(0 : ℚ)|) * 0 + 0 = 0 by norm_num]
    rw [ih (n - 1) (by omega)]
    omega

/-- C6 (amended): the escape-time loop of `render_julia` iterates exactly
z ← z² + c from its seed, runs at most `max_iter` iterations, and stops at
the first iterate whose |z|² exceeds 4.0 (every earlier iterate satisfies
|z|² ≤ 4); with constant (0,0) and seed 0 it never escapes and returns
exactly `max_iter`.  `draw_fractal_` iterates a modified recurrence (the
real part is replaced by -|Re z| before the imaginary update), also capped
at `max_iter` and bailing out at |z|² > 4; at the pixel mapping to c=(0,0)
(Mandelbrot rule: seed 0) it also never escapes and returns exactly its cap
150. -/
theorem escape_time_spec :
    (∀ (cx cy zx zy : ℚ) (n : Nat), escapeCount cx cy zx zy n ≤ n) ∧
    (∀ (cx cy zx zy : ℚ) (n : Nat),
      (escapeCount cx cy zx zy n < n →
        4 < normSq (traj cx cy (zx, zy) (escapeCount cx cy zx zy n))) ∧
      (∀ j, j < escapeCount cx cy zx zy n → normSq (traj cx cy (zx, zy) j) ≤ 4)) ∧
    (∀ n : Nat, escapeCount 0 0 0 0 n = n) ∧
    (∀ (cx cy zx zy : ℚ) (n : Nat), draw_fractal_count cx cy zx zy n ≤ n) ∧
    (∀ n : Nat, draw_fractal_count 0 0 0 0 n = n) ∧
    draw_fractal_count 0 0 0 0 150 = 150 :=
  ⟨fun cx cy zx zy n => escapeCount_le cx cy n zx zy,
   fun cx cy zx zy n => escapeCount_first_escape cx cy n zx zy,
   escapeCount_origin,
   fun cx cy zx zy n => draw_fractal_count_le cx cy n zx zy,
   draw_fractal_count_origin,
   draw_fractal_count_origin 150⟩

theorem escape_time_spec_witness :
    escapeCount 2 2 3 3 7 < 7 ∧
    4 < normSq (traj 2 2 (3, 3) (escapeCount 2 2 3 3 7)) :=
  have h : escapeCount 2 2 3 3 7 < 7 := by
    unfold escapeCount
    norm_num
  ⟨h, (escape_time_spec.2.1 2 2 3 3 7).1 h⟩

/-- C6 (counterexample): `draw_fractal_` does not iterate z ← z² + c: at
c = (1,1) with seed 0 its loop (with the `zx = -fabs(zx)` step) completes 3
iterations before the bailout, while the plain z ← z² + c loop of
`render_julia` completes only 2 (all intermediate values are small integers,
on which C double arithmetic is exact). -/
theorem draw_fractal_not_z_squared :
    escapeCount 1 1 0 0 10 = 2 ∧ draw_fractal_count 1 1 0 0 10 = 3 ∧
    draw_fractal_count 1 1 0 0 10 ≠ escapeCount 1 1 0 0 10 := by
  have h1 : escapeCount 1 1 0 0 10 = 2 := by
    unfold escapeCount
    norm_num
    unfold escapeCount
    norm_num
    unfold escapeCount
    norm_num
  have h2 : draw_fractal_count 1 1 0 0 10 = 3 := by
    unfold draw_fractal_count
    norm_num
    unfold draw_fractal_count
    norm_num
    unfold draw_fractal_count
    norm_num
    unfold draw_fractal_count
    norm_num
  exact ⟨h1, h2, by rw [h1, h2]; omega⟩

/-- Outcome of a text encoder: a clean return with the emitted chunks, or a
crash (NULL dereference, undefined behaviour) after the listed chunks were
already written to the stream. -/
inductive PpmResult where
  | done : Int → List String → PpmResult
  | crash : List String → PpmResult
deriving DecidableEq

/-- Outcome of a binary encoder: a clean return code with the file bytes, or
a crash (NULL dereference) after the listed bytes were already written. -/
inductive BytesResult where
  | done : Int → List Nat → BytesResult
  | crash : List Nat → BytesResult
deriving DecidableEq

/-- The PPM header chunk `fprintf(fout, "P3 %d %d 255\n", width, height)`
(src/ppm.c line 18). -/
def ppm_header_chunk (w h : Nat) : String :=
  "P3 " ++ toString w ++ " " ++ toString h ++ " 255\n"

/-- The k-th emitted pixel line `fprintf(fout, "%d %d %d\n", r, g, b)`:
the forward-marching pointer p reads bytes 4k, 4k+1, 4k+2 (alpha skipped). -/
def ppm_pixel_chunk (px : List Nat) (k : Nat) : String :=
  toString (px.getD (4 * k) 0) ++ " " ++ toString (px.getD (4 * k + 1) 0) ++ " " ++
    toString (px.getD (4 * k + 2) 0) ++ "\n"

/-- `ppm_write_ascii_to_stream` (src/ppm.c line 11, src/render_image_1.c
line 39): emits the header, then loops y from height-1 down to 0 and x from
0 to width-1 — but reads the pixels through a single pointer `p` that only
marches forward from the start of the buffer, so the k-th emitted line is
pixel k of the buffer: rows come out in buffer order (first row first),
the y countdown being a dead index (the source carries the comment
"TODO: fix bottom-to-up ordering").  With a NULL pixel buffer and both
dimensions positive, the first `*p++` dereferences NULL: modelled as a
crash after the header chunk. -/
def ppm_write_ascii_to_stream (w h : Nat) (px? : Option (List Nat)) : PpmResult :=
  match px? with
  | none =>
    if w = 0 ∨ h = 0 then .done 0 [ppm_header_chunk w h]
    else .crash [ppm_header_chunk w h]
  | some px => .done 0 (ppm_header_chunk w h :: (List.range (w * h)).map (ppm_pixel_chunk px))

/-- `image_export_ppm_ascii` (src/ppm.c line 43): opens the file, streams
through `ppm_write_ascii_to_stream`, closes; returns 0 on success and -1 on
fopen/fclose failure.  File-system failures are outside the model (assumed
to succeed); there is no check of the pixel pointer before writing. -/
def image_export_ppm_ascii (w h : Nat) (px? : Option (List Nat)) : PpmResult :=
  ppm_write_ascii_to_stream w h px?

/-- The 54-byte BMP header of `bmp_write` (src/renderer.c line 103) with the
little-endian width and height patched in at offsets 18-25. -/
def bmp_header_bytes (w h : Nat) : List Nat :=
  [0x42, 0x4d, 0x46, 0, 0, 0, 0, 0, 0, 0, 0x36, 0, 0, 0, 0x28, 0, 0, 0,
   w % 256, (w / 256) % 256, (w / 65536) % 256, (w / 16777216) % 256,
   h % 256, (h / 256) % 256, (h / 65536) % 256, (h / 16777216) % 256,
   1, 0, 0x18, 0, 0, 0, 0, 0, 0, 0, 0, 0, 0x13, 0x0b, 0, 0, 0x13, 0x0b, 0, 0,
   0, 0, 0, 0, 0, 0, 0, 0]

/-- `bmp_write` (src/renderer.c line 101): writes the 54-byte header, then
the pixel rows bottom-to-top (y from height-1 down to 0), each pixel as
B,G,R read from the 4-byte-per-pixel buffer at offset (y*width+x)*4.
The pixel pointer is not checked: with NULL pixels and positive dimensions
the first row read dereferences NULL — a crash after the header. -/
def bmp_write (w h : Nat) (px? : Option (List Nat)) : BytesResult :=
  match px? with
  | none =>
    if w = 0 ∨ h = 0 then .done 0 (bmp_header_bytes w h)
    else .crash (bmp_header_bytes w h)
  | some px =>
    .done 0 (bmp_header_bytes w h ++ (List.range h).flatMap (fun yi =>
      (List.range w).flatMap (fun x =>
        [px.getD (((h - 1 - yi) * w + x) * 4 + 2) 0,
         px.getD (((h - 1 - yi) * w + x) * 4 + 1) 0,
         px.getD (((h - 1 - yi) * w + x) * 4) 0])))

/-- The 18-byte TGA header `true_color_tga_header` (src/tga.c line 20) with
little-endian width/height at offsets 12-15 (each byte stored into an
unsigned char, hence the mod 256): uncompressed true color, 24 bpp,
orientation flag 0x20. -/
def tga_header_bytes (w h : Nat) : List Nat :=
  [0, 0, 2, 0, 0, 0, 0, 0, 0, 0, 0, 0,
   w % 256, (w / 256) % 256, h % 256, (h / 256) % 256, 0x18, 0x20]

/-- `tga_write` (src/tga.c line 36): returns 1 without opening any file when
the pixel pointer is NULL; otherwise writes the 18-byte header and then
every pixel top-to-bottom as B,G,R (alpha skipped), returning 0. -/
def tga_write (w h : Nat) (px? : Option (List Nat)) : BytesResult :=
  match px? with
  | none => .done 1 []
  | some px =>
    .done 0 (tga_header_bytes w h ++ (List.range (w * h)).flatMap (fun i =>
      [px.getD (4 * i + 2) 0, px.getD (4 * i + 1) 0, px.getD (4 * i) 0]))

/-- C8 (amended): only the TGA encoder tolerates a NULL pixel pointer — it
returns 1 before opening the file, writing nothing.  The BMP and PPM
encoders do not check the pointer: for any positive dimensions they write
their header and then dereference NULL (undefined behaviour, modelled as a
crash), leaving a partial file. -/
theorem encoders_null_pixels (w h : Nat) :
    tga_write w h none = .done 1 [] ∧
    (0 < w → 0 < h →
      bmp_write w h none = .crash (bmp_header_bytes w h) ∧
      image_export_ppm_ascii w h none = .crash [ppm_header_chunk w h] ∧
      bmp_header_bytes w h ≠ []) := by
  refine ⟨rfl, fun hw hh => ⟨?_, ?_, by simp [bmp_header_bytes]⟩⟩
  · simp only [bmp_write]
    rw [if_neg (by omega)]
  · simp only [image_export_ppm_ascii, ppm_write_ascii_to_stream]
    rw [if_neg (by omega)]

theorem encoders_null_pixels_witness :
    (0 < 1 ∧ 0 < 1) ∧
    (tga_write 1 1 none = .done 1 [] ∧
      bmp_write 1 1 none = .crash (bmp_header_bytes 1 1)) :=
  ⟨⟨by decide, by decide⟩,
    (encoders_null_pixels 1 1).1, ((encoders_null_pixels 1 1).2 (by decide) (by decide)).1⟩

/-- C8 (counterexample): at width = height = 1 the PPM encoder called with a
NULL pixel pointer does not fail cleanly: it emits the header line and then
crashes on the NULL dereference, so a partial file has been written and no
error value is returned.  (The BMP encoder behaves the same way; only TGA
checks the pointer.) -/
theorem ppm_null_pixels_crashes :
    image_export_ppm_ascii 1 1 none = .crash [ppm_header_chunk 1 1] ∧
    (∀ ret chunks, image_export_ppm_ascii 1 1 none ≠ PpmResult.done ret chunks) := by
  refine ⟨rfl, fun ret chunks h => ?_⟩
  simp [image_export_ppm_ascii, ppm_write_ascii_to_stream] at h

/-- C9: on the concrete 1x2 RGBA buffer whose rows are (10,20,30) then
(40,50,60), the PPM stream is the header followed by "10 20 30" and then
"40 50 60": the FIRST buffer row is emitted first.  The claim (and the
source's own doc comment "reading from the provided buffer in bottom-to-top
row order", plus its "TODO: fix bottom-to-up ordering") says the last buffer
row should appear first; the forward-marching pointer makes the y countdown
a dead variable, so rows actually come out top-to-bottom. -/
theorem ppm_rows_buffer_order :
    image_export_ppm_ascii 1 2 (some [10, 20, 30, 0, 40, 50, 60, 0])
      = .done 0 ["P3 1 2 255\n", "10 20 30\n", "40 50 60\n"] := by
  rfl
